import Mathlib

/-!
Verification of the `derive_builder` code generator.

Two components are embedded:

* the block embedder (`derive_builder_core/src/block.rs`): `BlockContents`,
  its two construction paths (from a string literal, from a parsed
  expression), the emptiness query and token re-emission;
* the builder generator (`src/lib.rs`): `builder_for_struct`, which turns a
  parsed record type into the token sequence of an `impl` block of chained
  setter methods.

The host-language parser and token machinery (`syn` / `quote`) are external
collaborators of the repository; they are modelled here at the granularity
the code uses them: a token-tree lexer with delimiter matching, a statement
splitter, and flat token sequences for emitted code.
-/

/-! ## Block embedder: token trees and the external parser model -/

/-- Token tree of the host language's lexer: either a single non-delimiter
character token, or a brace-delimited group of token trees.  Models
`proc_macro2::TokenTree` at the granularity `block.rs` relies on
(delimiter matching is what its error path exercises). -/
inductive TT : Type
  | tok (c : Char)
  | braced (inner : List TT)

/-- A parse/lex error of the external parser, carrying the position of the
offending token.  Models `syn::Error` as used by `block.rs` (the spec's
`SyntaxError`). -/
structure SynErr : Type where
  pos : Nat
deriving DecidableEq, Repr

/-- Lexer loop of the external token-tree lexer: walks the characters with
the current position, the (reversed) tokens of the current group, and a
stack of open groups `(position of the open brace, reversed outer tokens)`.
An unmatched closing brace errors at its own position; an unclosed opening
brace errors at the open brace's position.  Whitespace is skipped. -/
def lexLoop : List Char → Nat → List TT → List (Nat × List TT) → Except SynErr (List TT)
  | [], _, acc, [] => Except.ok acc.reverse
  | [], _, _, (openPos, _) :: _ => Except.error ⟨openPos⟩
  | c :: cs, i, acc, stk =>
    if c = '\x7b' then lexLoop cs (i + 1) [] ((i, acc) :: stk)
    else if c = '\x7d' then
      match stk with
      | [] => Except.error ⟨i⟩
      | (_, outer) :: stk2 => lexLoop cs (i + 1) (TT.braced acc.reverse :: outer) stk2
    else if c = ' ' then lexLoop cs (i + 1) acc stk
    else lexLoop cs (i + 1) (TT.tok c :: acc) stk

/-- Lex a whole string into a sequence of token trees. -/
def lexStr (s : String) : Except SynErr (List TT) :=
  lexLoop s.data 0 [] []

/-- A statement of a parsed block: an expression statement given by its
token trees, with or without a trailing semicolon.  Models `syn::Stmt` at
the granularity `block.rs` observes it (an opaque, re-emittable statement
sequence). -/
inductive Stmt : Type
  | exprStmt (tts : List TT) (semi : Bool)

/-- Tokens of one statement: its token trees followed by its semicolon, if
present. -/
def stmtToks : Stmt → List TT
  | Stmt.exprStmt tts semi => tts ++ (if semi then [TT.tok ';'] else [])

/-- Tokens of a statement sequence, in order. -/
def stmtsToks (l : List Stmt) : List TT :=
  (l.map stmtToks).flatten

/-- Statement splitter of the external block parser: cuts a group's token
trees at each top-level semicolon; a trailing run without a semicolon
becomes a final expression statement. `acc` holds the current statement's
tokens in reverse. -/
def splitStmtsAux : List TT → List TT → List Stmt
  | [], acc => if acc.isEmpty then [] else [Stmt.exprStmt acc.reverse false]
  | TT.tok c :: rest, acc =>
    if c = ';' then Stmt.exprStmt acc.reverse true :: splitStmtsAux rest []
    else splitStmtsAux rest (TT.tok c :: acc)
  | TT.braced inner :: rest, acc => splitStmtsAux rest (TT.braced inner :: acc)

/-- Split a group's token trees into statements. -/
def splitStmts (ts : List TT) : List Stmt :=
  splitStmtsAux ts []

/-- A parsed block: the span recorded for its brace pair and its statement
sequence.  Models `syn::Block` (spans are opaque locations, modelled as
`Nat`). -/
structure Block : Type where
  braceSpan : Nat
  stmts : List Stmt

/-- Block parse of the external parser, as invoked by `LitStr::parse`:
lex the whole string, then require the result to be exactly one braced
group; its contents are split into statements.  `sp` is the span of the
string literal being parsed, recorded on the block's brace pair.  Any lex
error propagates unchanged; leftover tokens around the group are a parse
error. -/
def parseBlock (s : String) (sp : Nat) : Except SynErr Block :=
  match lexStr s with
  | Except.error e => Except.error e
  | Except.ok tts =>
    match tts with
    | [TT.braced inner] => Except.ok ⟨sp, splitStmts inner⟩
    | _ => Except.error ⟨0⟩

/-- A string literal with its span.  Models `syn::LitStr` (value and
source location). -/
structure LitStr : Type where
  value : String
  span : Nat

/-- An already-parsed expression: its emitted token trees and its span.
Models `syn::Expr` at the granularity `block.rs` observes it (opaque,
spanned, re-emittable). -/
structure Expr : Type where
  tts : List TT
  span : Nat

/-- A wrapper for expressions/blocks which automatically adds the start
and end braces.  Embeds `BlockContents` of
`derive_builder_core/src/block.rs`. -/
structure BlockContents : Type where
  block : Block

/-- Emptiness query: whether the wrapped block's statement sequence has
zero entries.  Embeds `BlockContents::is_empty`. -/
def BlockContents.is_empty (b : BlockContents) : Bool :=
  b.block.stmts.isEmpty

/-- Token emission for a block (the external `ToTokens` impl of
`syn::Block`): appends one brace-delimited group holding the statement
tokens to the output stream. -/
def Block.to_tokens (bl : Block) (tokens : List TT) : List TT :=
  tokens ++ [TT.braced (stmtsToks bl.stmts)]

/-- Token emission for `BlockContents`: delegates to the wrapped block.
Embeds `impl ToTokens for BlockContents` (`self.0.to_tokens(tokens)`). -/
def BlockContents.to_tokens (b : BlockContents) (tokens : List TT) : List TT :=
  Block.to_tokens b.block tokens

/-- The delimited text built by `TryFrom<&LitStr>`: the fragment with an
opening brace inserted at the front and a closing brace pushed at the back
(`block_str.insert(0, '\x7b'); block_str.push('\x7d')`). -/
def wrapStr (s : String) : String :=
  "\x7b" ++ s ++ "\x7d"

/-- Construction from a string literal: wrap the fragment in braces and
parse the result as a block, at the literal's span.  Embeds
`impl TryFrom<&LitStr> for BlockContents`. -/
def BlockContents.tryFrom (s : LitStr) : Except SynErr BlockContents :=
  (parseBlock (wrapStr s.value) s.span).map BlockContents.mk

/-- Construction from an already-parsed expression: wrap it as the sole
statement of a new block whose brace pair carries the expression's span.
Embeds `impl From<syn::Expr> for BlockContents`. -/
def BlockContents.fromExpr (v : Expr) : BlockContents :=
  ⟨⟨v.span, [Stmt.exprStmt v.tts false]⟩⟩

/-! ## Builder generator: tokens, syntax-tree input, and `builder_for_struct` -/

/-- A flat output token of the generator: an identifier/keyword or a
punctuation/delimiter.  Models the token stream built by the `quote!`
macro (delimiters are kept flat as punctuation tokens). -/
inductive Tok : Type
  | ident (s : String)
  | punct (s : String)
deriving DecidableEq, Repr

/-- An attribute attached to an item or field (`#[...]` or a
doc-comment), kept as an opaque token sequence.  Models `syn::Attribute`. -/
structure Attr : Type where
  toks : List Tok
deriving DecidableEq, Repr

/-- One named field of a struct: its identifier, its declared type (an
opaque re-emittable token sequence) and its attributes.  Models
`syn::Field` for named fields (named `FieldDef` here to avoid the ambient algebraic `Field`). -/
structure FieldDef : Type where
  ident : String
  ty : List Tok
  attrs : List Attr
deriving DecidableEq, Repr

/-- One generic parameter of the input type: its identifier and its
declared bounds (opaque tokens; empty when unbounded).  Models
`syn::TyParam`. -/
structure TyParam : Type where
  ident : String
  bounds : List Tok
deriving DecidableEq, Repr

/-- The generics of the input type: its ordered parameters and its
where-clause tokens (empty when absent).  Models `syn::Generics`. -/
structure Generics : Type where
  params : List TyParam
  whereClause : List Tok
deriving DecidableEq, Repr

/-- The data of a struct: named fields (braced), unnamed fields (tuple),
or no fields (unit).  Models `syn::VariantData`. -/
inductive VariantData : Type
  | Struct (fields : List FieldDef)
  | Tuple (fields : List FieldDef)
  | Unit
deriving DecidableEq, Repr

/-- The body of the derive input: a struct with its data, or an enum with
its variant names.  Models `syn::Body`. -/
inductive Body : Type
  | Enum (variants : List String)
  | Struct (data : VariantData)
deriving DecidableEq, Repr

/-- The parsed derive input handed to the generator: the type's name, its
attributes, its generics and its body.  Models `syn::MacroInput`. -/
structure MacroInput : Type where
  ident : String
  attrs : List Attr
  generics : Generics
  body : Body
deriving DecidableEq, Repr

/-- The shape error raised by the generator (the `panic!` in
`builder_for_struct`, surfaced by the compiler at the macro-invocation
boundary), carrying the panic message. -/
structure ShapeError : Type where
  msg : String
deriving DecidableEq, Repr

/-- The generator's panic message for a non-braced input shape. -/
def shapeErrMsg : String :=
  "#[derive(new)] can only be used with braced structs"

/-- Expressions occurring in the generated setter body: the receiver
`self`, a variable, or a nullary method call `recv.m()`. -/
inductive RExpr : Type
  | selfE
  | var (s : String)
  | methodCall (recv : RExpr) (m : String)
deriving DecidableEq, Repr

/-- Statements occurring in the generated setter body: an assignment to a
field of a receiver (`recv.fld = rhs;`) or an expression statement. -/
inductive RStmt : Type
  | assignField (recv : RExpr) (fld : String) (rhs : RExpr)
  | exprS (e : RExpr)
deriving DecidableEq, Repr

/-- The body of the generated setter for field `f`, as written in the
`quote!` template of `builder_for_struct`:
`self.#f_name = value.into(); self`. -/
def setterAst (f : String) : List RStmt :=
  [RStmt.assignField RExpr.selfE f (RExpr.methodCall (RExpr.var "value") "into"),
   RStmt.exprS RExpr.selfE]

/-- Token emission for a setter-body expression. -/
def emitExpr : RExpr → List Tok
  | RExpr.selfE => [Tok.ident "self"]
  | RExpr.var s => [Tok.ident s]
  | RExpr.methodCall recv m =>
    emitExpr recv ++ [Tok.punct ".", Tok.ident m, Tok.punct "(", Tok.punct ")"]

/-- Token emission for a setter-body statement. -/
def emitStmt : RStmt → List Tok
  | RStmt.assignField recv fld rhs =>
    emitExpr recv ++ [Tok.punct ".", Tok.ident fld, Tok.punct "="] ++ emitExpr rhs ++ [Tok.punct ";"]
  | RStmt.exprS e => emitExpr e

/-- Token emission for a setter-body statement sequence. -/
def emitStmts (l : List RStmt) : List Tok :=
  (l.map emitStmt).flatten

/-- Values a setter-body expression can take: the `&mut self` receiver
reference, a plain value, or the unit value. -/
inductive RVal (V : Type) : Type
  | selfRef
  | pureV (v : V)
  | unitV

/-- Evaluation of a setter-body expression.  The environment is the one
the generated method runs in: the single argument `value` (of the
caller-chosen `VALUE` type) and the ambient `Into`-conversion `intoFn`
into the field's type (both modelled over one value universe `V`). -/
def evalExpr {V : Type} (value : V) (intoFn : V → V) : RExpr → Option (RVal V)
  | RExpr.selfE => some RVal.selfRef
  | RExpr.var s => if s = "value" then some (RVal.pureV value) else none
  | RExpr.methodCall recv m =>
    match evalExpr value intoFn recv with
    | some (RVal.pureV v) => if m = "into" then some (RVal.pureV (intoFn v)) else none
    | _ => none

/-- Evaluation of a setter-body statement sequence against the receiver's
field state `st` (a map from field names to values).  An assignment
through `self` updates the named field; the trailing expression is the
block's result (the method's return value).  Returns the final field
state and the returned value. -/
def evalStmts {V : Type} (value : V) (intoFn : V → V) :
    List RStmt → (String → V) → Option ((String → V) × RVal V)
  | [], st => some (st, RVal.unitV)
  | RStmt.exprS e :: rest, st =>
    match evalExpr value intoFn e, rest with
    | some r, [] => some (st, r)
    | some _, _ :: _ => evalStmts value intoFn rest st
    | none, _ => none
  | RStmt.assignField recv fld rhs :: rest, st =>
    match evalExpr value intoFn recv, evalExpr value intoFn rhs with
    | some RVal.selfRef, some (RVal.pureV v) =>
      evalStmts value intoFn rest (fun x => if x = fld then v else st x)
    | _, _ => none

/-- The tokens of the generated setter for field `f` of declared type
`ty`, following the `quote!` template of `builder_for_struct`:
`pub fn #f_name<VALUE: Into<#ty>>(&mut self, value: VALUE) -> &mut Self
\x7b self.#f_name = value.into(); self \x7d`. -/
def setterFn (f : String) (ty : List Tok) : List Tok :=
  [Tok.ident "pub", Tok.ident "fn", Tok.ident f, Tok.punct "<", Tok.ident "VALUE",
   Tok.punct ":", Tok.ident "Into", Tok.punct "<"] ++ ty ++
  [Tok.punct ">", Tok.punct ">", Tok.punct "(", Tok.punct "&", Tok.ident "mut",
   Tok.ident "self", Tok.punct ",", Tok.ident "value", Tok.punct ":", Tok.ident "VALUE",
   Tok.punct ")", Tok.punct "->", Tok.punct "&", Tok.ident "mut", Tok.ident "Self",
   Tok.punct "\x7b"] ++ emitStmts (setterAst f) ++ [Tok.punct "\x7d"]

/-- Join token lists with a separator between consecutive entries. -/
def joinSep (sep : List Tok) : List (List Tok) → List Tok
  | [] => []
  | [x] => x
  | x :: rest => x ++ sep ++ joinSep sep rest

/-- Declaration tokens of one generic parameter, with its bounds (for the
`impl<...>` header position). -/
def paramDeclToks (p : TyParam) : List Tok :=
  [Tok.ident p.ident] ++ (if p.bounds.isEmpty then [] else [Tok.punct ":"] ++ p.bounds)

/-- The `impl_generics` fragment of `Generics::split_for_impl` (external
`syn` behavior): the parameter list as declared, with bounds, in angle
brackets; empty when there are no parameters. -/
def implGenericsToks (g : Generics) : List Tok :=
  if g.params.isEmpty then []
  else [Tok.punct "<"] ++ joinSep [Tok.punct ","] (g.params.map paramDeclToks) ++ [Tok.punct ">"]

/-- The `ty_generics` fragment of `Generics::split_for_impl` (external
`syn` behavior): the bare parameter names in angle brackets, for the
type-name-with-arguments position; empty when there are no parameters. -/
def tyGenericsToks (g : Generics) : List Tok :=
  if g.params.isEmpty then []
  else [Tok.punct "<"] ++ joinSep [Tok.punct ","] (g.params.map fun p => [Tok.ident p.ident]) ++ [Tok.punct ">"]

/-- The where-clause fragment of `Generics::split_for_impl` (external
`syn` behavior): the where-clause re-emitted verbatim (empty when
absent). -/
def whereToks (g : Generics) : List Tok :=
  g.whereClause

/-- The header tokens of the generated `impl` block:
`impl #impl_generics #name #ty_generics #where_clause \x7b`. -/
def implHeaderToks (name : String) (g : Generics) : List Tok :=
  [Tok.ident "impl"] ++ implGenericsToks g ++ [Tok.ident name] ++ tyGenericsToks g
    ++ whereToks g ++ [Tok.punct "\x7b"]

/-- The builder generator.  Embeds `builder_for_struct` of `src/lib.rs`:
match the body against a braced struct (anything else panics with the
shape message, modelled as the error case); map each field, in
declaration order, to its setter tokens; splice the setters into one
`impl` block carrying the type's split generics. -/
def builder_for_struct (ast : MacroInput) : Except ShapeError (List Tok) :=
  match ast.body with
  | Body.Struct (VariantData.Struct fields) =>
    let funcs := fields.map fun f => setterFn f.ident f.ty
    Except.ok (implHeaderToks ast.ident ast.generics ++ funcs.flatten ++ [Tok.punct "\x7d"])
  | _ => Except.error ⟨shapeErrMsg⟩

/-- Count of `fn` keyword tokens in a token sequence (one per emitted
method, when identifiers and types avoid the keyword). -/
def countFn : List Tok → Nat
  | [] => 0
  | Tok.ident s :: rest => (if s = "fn" then 1 else 0) + countFn rest
  | Tok.punct _ :: rest => countFn rest

/-- The identifiers occurring in a token sequence, in order. -/
def identsOf (ts : List Tok) : List String :=
  ts.filterMap fun t =>
    match t with
    | Tok.ident s => some s
    | Tok.punct _ => none

/-! ## Concrete inputs (from the crate's own doc examples) -/

/-- The fields of the doc example `struct Lorem { ipsum: String, dolor: i32 }`. -/
def loremFields : List FieldDef :=
  [⟨"ipsum", [Tok.ident "String"], []⟩, ⟨"dolor", [Tok.ident "i32"], []⟩]

/-- The doc example `Lorem` as a parsed derive input. -/
def loremAst : MacroInput :=
  ⟨"Lorem", [], ⟨[], []⟩, Body.Struct (VariantData.Struct loremFields)⟩

/-- The fields of `Lorem` with a doc-comment attribute attached to each
field (as in the crate's attribute doc example). -/
def loremFieldsDoc : List FieldDef :=
  [⟨"ipsum", [Tok.ident "String"], [⟨[Tok.ident "doc"]⟩]⟩,
   ⟨"dolor", [Tok.ident "i32"], [⟨[Tok.ident "doc"]⟩]⟩]

/-- The doc example `Lorem` with field attributes attached. -/
def loremAstDoc : MacroInput :=
  ⟨"Lorem", [], ⟨[], []⟩, Body.Struct (VariantData.Struct loremFieldsDoc)⟩

/-- A unit struct, a shape the generator rejects. -/
def unitAst : MacroInput :=
  ⟨"Empty", [], ⟨[], []⟩, Body.Struct VariantData.Unit⟩

/-- The fields of the doc example `struct GenLorem<T> { ipsum: String, dolor: T }`. -/
def genLoremFields : List FieldDef :=
  [⟨"ipsum", [Tok.ident "String"], []⟩, ⟨"dolor", [Tok.ident "T"], []⟩]

/-- The generic doc example `GenLorem<T>` as a parsed derive input. -/
def genLoremAst : MacroInput :=
  ⟨"GenLorem", [], ⟨[⟨"T", []⟩], []⟩, Body.Struct (VariantData.Struct genLoremFields)⟩

/-- A host type that already declares a generic parameter named `VALUE`
(the collision the crate documents as unsupported). -/
def valueAst : MacroInput :=
  ⟨"Tricky", [], ⟨[⟨"VALUE", []⟩], []⟩,
   Body.Struct (VariantData.Struct [⟨"x", [Tok.ident "u8"], []⟩])⟩

/-! ## Helper lemmas -/

/-- Rejoining the statements produced by the splitter recovers the
accumulated tokens followed by the remaining input: the splitter never
drops or truncates tokens. -/
theorem stmtsToks_splitStmtsAux :
    ∀ (ts : List TT) (acc : List TT),
      stmtsToks (splitStmtsAux ts acc) = acc.reverse ++ ts
  | [], acc => by
    by_cases h : acc.isEmpty
    · simp only [splitStmtsAux, h, if_pos]
      simp [stmtsToks, List.isEmpty_iff.mp h]
    · simp only [splitStmtsAux, h, if_neg, Bool.false_eq_true, not_false_eq_true]
      simp [stmtsToks, stmtToks]
  | TT.tok c :: rest, acc => by
    by_cases h : c = ';'
    · subst h
      simp only [splitStmtsAux, if_pos rfl]
      simp [stmtsToks, stmtToks] at *
      simpa [stmtsToks] using stmtsToks_splitStmtsAux rest []
    · simp only [splitStmtsAux, if_neg h]
      rw [stmtsToks_splitStmtsAux rest (TT.tok c :: acc)]
      simp
  | TT.braced inner :: rest, acc => by
    simp only [splitStmtsAux]
    rw [stmtsToks_splitStmtsAux rest (TT.braced inner :: acc)]
    simp

/-- Rejoining the split statements of a group recovers exactly the
group's token trees. -/
theorem stmtsToks_splitStmts (ts : List TT) : stmtsToks (splitStmts ts) = ts := by
  simpa using stmtsToks_splitStmtsAux ts []

/-! ## Claim theorems: block embedder -/

/-- C4: Constructing a `BlockContents` from a text fragment prepends an
opening delimiter and appends a matching closing delimiter and parses the
delimited text as a statement block; when the delimited fragment is not a
well-formed statement sequence, construction fails with a `SyntaxError`
carrying the location of the offending token, and an accepted fragment is
never truncated: the statements of a successful construction rejoin to
exactly the lexed contents of the delimited text. -/
theorem tryFrom_delimits_and_rejects_malformed (s : LitStr) :
    BlockContents.tryFrom s = (parseBlock (wrapStr s.value) s.span).map BlockContents.mk
    ∧ (∀ e, lexStr (wrapStr s.value) = Except.error e →
        BlockContents.tryFrom s = Except.error e)
    ∧ (∀ b, BlockContents.tryFrom s = Except.ok b →
        lexStr (wrapStr s.value) = Except.ok [TT.braced (stmtsToks b.block.stmts)]) := by
  refine ⟨rfl, ?_, ?_⟩
  · intro e h
    simp [BlockContents.tryFrom, parseBlock, h, Except.map]
  · intro b h
    unfold BlockContents.tryFrom parseBlock at h
    cases hl : lexStr (wrapStr s.value) with
    | error e => rw [hl] at h; simp [Except.map] at h
    | ok tts =>
      rw [hl] at h
      match tts, h with
      | [TT.braced inner], h =>
        simp only [Except.map] at h
        cases h
        simp [stmtsToks_splitStmts]

/-- Witness for C4: the unterminated fragment `"\x7b x + 1"` of the block
embedder's own test suite fails with a lexical error at the position of
the unclosed opening delimiter. -/
theorem tryFrom_malformed_witness :
    BlockContents.tryFrom ⟨"\x7b x + 1", 0⟩ = Except.error ⟨0⟩ :=
  (tryFrom_delimits_and_rejects_malformed ⟨"\x7b x + 1", 0⟩).2.1 ⟨0⟩ rfl

/-- C6: Re-emission of any `BlockContents` is a pure append of the
delimited statement sequence, so re-emitting twice appends two identical
token sequences, and the emitted form is the brace-delimited statement
tokens (the empty group when the block is empty). -/
theorem to_tokens_idempotent_delimited (b : BlockContents) (ts : List TT) :
    BlockContents.to_tokens b ts = ts ++ [TT.braced (stmtsToks b.block.stmts)]
    ∧ BlockContents.to_tokens b (BlockContents.to_tokens b ts) =
        ts ++ [TT.braced (stmtsToks b.block.stmts)] ++ [TT.braced (stmtsToks b.block.stmts)]
    ∧ (b.block.stmts = [] → BlockContents.to_tokens b ts = ts ++ [TT.braced []]) := by
  refine ⟨rfl, rfl, fun h => ?_⟩
  simp [BlockContents.to_tokens, Block.to_tokens, stmtsToks, h]

/-- Witness for C6: an empty `BlockContents` emits the empty delimited
group. -/
theorem to_tokens_empty_witness :
    BlockContents.to_tokens ⟨⟨0, []⟩⟩ [] = [] ++ [TT.braced []] :=
  (to_tokens_idempotent_delimited ⟨⟨0, []⟩⟩ []).2.2 rfl

/-- C7: Constructing a `BlockContents` from an already-parsed expression
(a total operation: no error path) yields a block with exactly one
statement, whose re-emission is the delimited form of that same
expression, and whose synthesized delimiter pair carries the expression's
span. -/
theorem fromExpr_single_stmt_delimited (v : Expr) (ts : List TT) :
    (BlockContents.fromExpr v).block.stmts.length = 1
    ∧ BlockContents.to_tokens (BlockContents.fromExpr v) ts = ts ++ [TT.braced v.tts]
    ∧ (BlockContents.fromExpr v).block.braceSpan = v.span := by
  refine ⟨rfl, ?_, rfl⟩
  simp [BlockContents.fromExpr, BlockContents.to_tokens, Block.to_tokens, stmtsToks, stmtToks]

/-- C8: The emptiness query is pure and returns `true` exactly when the
statement sequence has zero entries; a `BlockContents` built from the
empty fragment reports itself empty, and one built from an expression
(one statement) does not. -/
theorem is_empty_iff_no_stmts (b : BlockContents) (v : Expr) :
    (b.is_empty = true ↔ b.block.stmts = [])
    ∧ (BlockContents.fromExpr v).is_empty = false
    ∧ BlockContents.tryFrom ⟨"", 0⟩ = Except.ok ⟨⟨0, []⟩⟩
    ∧ BlockContents.is_empty ⟨⟨0, []⟩⟩ = true := by
  refine ⟨?_, rfl, rfl, rfl⟩
  simp [BlockContents.is_empty]

/-! ## Helper lemmas: builder generator -/

/-- Counting `fn` tokens distributes over append. -/
theorem countFn_append (a b : List Tok) : countFn (a ++ b) = countFn a + countFn b := by
  induction a with
  | nil => simp [countFn]
  | cons t rest ih =>
    cases t with
    | ident s => simp [countFn, ih]; ring
    | punct s => simp [countFn, ih]

/-- A token sequence without the `fn` identifier contributes no `fn`
count. -/
theorem countFn_eq_zero (ts : List Tok) (h : Tok.ident "fn" ∉ ts) : countFn ts = 0 := by
  induction ts with
  | nil => rfl
  | cons t rest ih =>
    cases t with
    | ident s =>
      have hs : s ≠ "fn" := by
        intro he; exact h (by rw [he]; exact List.mem_cons_self _ _)
      simp [countFn, hs, ih (fun hm => h (List.mem_cons_of_mem _ hm))]
    | punct s => simp [countFn, ih (fun hm => h (List.mem_cons_of_mem _ hm))]

/-- Each emitted setter holds exactly one `fn` keyword, provided the field
name is not itself the keyword and its declared type does not mention it. -/
theorem countFn_setterFn (f : String) (ty : List Tok)
    (h1 : f ≠ "fn") (h2 : Tok.ident "fn" ∉ ty) : countFn (setterFn f ty) = 1 := by
  simp [setterFn, emitStmts, setterAst, emitStmt, emitExpr, countFn_append, countFn, h1,
    countFn_eq_zero ty h2]

/-- The setter region of the output holds exactly one `fn` keyword per
field. -/
theorem countFn_flatten_setters (fields : List FieldDef)
    (hfn : ∀ f ∈ fields, f.ident ≠ "fn" ∧ Tok.ident "fn" ∉ f.ty) :
    countFn ((fields.map fun f => setterFn f.ident f.ty).flatten) = fields.length := by
  induction fields with
  | nil => rfl
  | cons fd rest ih =>
    have h1 := hfn fd (List.mem_cons_self _ _)
    simp only [List.map_cons, List.flatten_cons, countFn_append, List.length_cons]
    rw [countFn_setterFn fd.ident fd.ty h1.1 h1.2,
      ih (fun f hf => hfn f (List.mem_cons_of_mem _ hf))]
    ring

/-- Unfolding equation of `joinSep` on a list of two or more entries. -/
theorem joinSep_cons_cons (sep x y : List Tok) (rest : List (List Tok)) :
    joinSep sep (x :: y :: rest) = x ++ sep ++ joinSep sep (y :: rest) := rfl

/-- Identifier extraction distributes over append. -/
theorem identsOf_append (a b : List Tok) : identsOf (a ++ b) = identsOf a ++ identsOf b := by
  simp [identsOf]

/-- The identifiers of a comma-joined name list are exactly the names, in
order. -/
theorem identsOf_joinSep_names :
    ∀ ps : List TyParam,
      identsOf (joinSep [Tok.punct ","] (ps.map fun p => [Tok.ident p.ident]))
        = ps.map (fun p => p.ident)
  | [] => rfl
  | [p] => rfl
  | p :: q :: rest => by
    simp only [List.map_cons] at *
    rw [joinSep_cons_cons, identsOf_append, identsOf_append]
    have ih := identsOf_joinSep_names (q :: rest)
    simp only [List.map_cons] at ih
    rw [ih]
    rfl

/-- Every joined entry occurs as a sublist of the join. -/
theorem sublist_joinSep (sep : List Tok) :
    ∀ (xs : List (List Tok)) (x : List Tok), x ∈ xs → List.Sublist x (joinSep sep xs)
  | [], x, h => absurd h (List.not_mem_nil x)
  | [y], x, h => by
    rcases List.mem_singleton.mp h with rfl
    exact List.Sublist.refl x
  | y :: z :: rest, x, h => by
    rw [joinSep_cons_cons]
    rcases List.mem_cons.mp h with rfl | h2
    · rw [List.append_assoc]
      exact List.sublist_append_left x (sep ++ joinSep sep (z :: rest))
    · exact (sublist_joinSep sep (z :: rest) x h2).trans
        (List.sublist_append_right (y ++ sep) (joinSep sep (z :: rest)))

/-- A parameter's bounds occur verbatim inside its declaration tokens. -/
theorem bounds_sublist_paramDecl (p : TyParam) : List.Sublist p.bounds (paramDeclToks p) := by
  unfold paramDeclToks
  by_cases h : p.bounds.isEmpty
  · simp [List.isEmpty_iff.mp h]
  · simp only [h, Bool.false_eq_true, if_neg, not_false_eq_true]
    rw [← List.append_assoc]
    exact List.sublist_append_right ([Tok.ident p.ident] ++ [Tok.punct ":"]) p.bounds

/-! ## Claim theorems: builder generator -/

/-- C1: For a named-field record with N fields the generated
implementation block contains exactly N setter methods — the output is
the impl header followed by the flattened per-field setters in
field-declaration order, the setter list has one entry per field, each
setter's method name (the identifier after `pub fn`) is its field's name,
and (when neither a field name nor a field type mentions the `fn`
keyword) the setter region holds exactly N `fn` keywords. -/
theorem builder_setters_one_per_field (ast : MacroInput) (fields : List FieldDef)
    (h : ast.body = Body.Struct (VariantData.Struct fields))
    (hfn : ∀ f ∈ fields, f.ident ≠ "fn" ∧ Tok.ident "fn" ∉ f.ty) :
    builder_for_struct ast =
      Except.ok (implHeaderToks ast.ident ast.generics
        ++ (fields.map fun f => setterFn f.ident f.ty).flatten ++ [Tok.punct "\x7d"])
    ∧ (fields.map fun f => setterFn f.ident f.ty).length = fields.length
    ∧ (∀ f ty, (setterFn f ty)[2]? = some (Tok.ident f))
    ∧ countFn ((fields.map fun f => setterFn f.ident f.ty).flatten) = fields.length := by
  obtain ⟨ai, aa, ag, ab⟩ := ast
  cases h
  exact ⟨rfl, by simp, fun f ty => rfl, countFn_flatten_setters fields hfn⟩

/-- Witness for C1: the two-field doc example `Lorem` yields exactly two
setter methods. -/
theorem builder_setters_witness :
    countFn ((loremFields.map fun f => setterFn f.ident f.ty).flatten) = 2 :=
  (builder_setters_one_per_field loremAst loremFields rfl (by decide)).2.2.2

/-- C2: The generated setter for a field is named after the field, takes
one argument of the fresh type parameter `VALUE` bounded by `Into` of the
field's declared type (visible in the emitted token sequence), and its
body — evaluated against any receiver state, argument value and
conversion — assigns the converted value to that field, leaves every
other field unchanged, and returns the receiver reference (`self`), so a
further setter call can be chained on the same instance. -/
theorem setter_assigns_frames_and_chains (f : String) (ty : List Tok) {V : Type}
    (intoFn : V → V) (value : V) (st : String → V) :
    setterFn f ty =
      [Tok.ident "pub", Tok.ident "fn", Tok.ident f, Tok.punct "<", Tok.ident "VALUE",
       Tok.punct ":", Tok.ident "Into", Tok.punct "<"] ++ ty ++
      [Tok.punct ">", Tok.punct ">", Tok.punct "(", Tok.punct "&", Tok.ident "mut",
       Tok.ident "self", Tok.punct ",", Tok.ident "value", Tok.punct ":", Tok.ident "VALUE",
       Tok.punct ")", Tok.punct "->", Tok.punct "&", Tok.ident "mut", Tok.ident "Self",
       Tok.punct "\x7b"] ++ emitStmts (setterAst f) ++ [Tok.punct "\x7d"]
    ∧ ∃ st2, evalStmts value intoFn (setterAst f) st = some (st2, RVal.selfRef)
        ∧ st2 f = intoFn value
        ∧ ∀ g, g ≠ f → st2 g = st g := by
  refine ⟨rfl, fun x => if x = f then intoFn value else st x, ?_, if_pos rfl, fun g hg => if_neg hg⟩
  simp [setterAst, evalStmts, evalExpr]

/-- C3: The generator succeeds on every named-field record and fails with
the shape error on every other body shape (tuple struct, unit struct,
enum), producing no output in that case; the shape check is its only
error path. -/
theorem shape_error_iff_not_named (ast : MacroInput) :
    ((∃ fields, ast.body = Body.Struct (VariantData.Struct fields)) →
      ∃ out, builder_for_struct ast = Except.ok out)
    ∧ ((∀ fields, ast.body ≠ Body.Struct (VariantData.Struct fields)) →
      builder_for_struct ast = Except.error ⟨shapeErrMsg⟩) := by
  constructor
  · rintro ⟨fields, h⟩
    refine ⟨implHeaderToks ast.ident ast.generics
        ++ (fields.map fun f => setterFn f.ident f.ty).flatten ++ [Tok.punct "\x7d"], ?_⟩
    obtain ⟨ai, aa, ag, ab⟩ := ast
    cases h
    rfl
  · intro h
    unfold builder_for_struct
    cases hb : ast.body with
    | Enum vs => rfl
    | Struct vd =>
      cases vd with
      | Struct fields => exact absurd hb (h fields)
      | Tuple fields => rfl
      | Unit => rfl

/-- Witness for C3: a unit struct is rejected with the shape error. -/
theorem shape_error_unit_witness :
    builder_for_struct unitAst = Except.error ⟨shapeErrMsg⟩ :=
  (shape_error_iff_not_named unitAst).2
    (fun fields h => by injection h with h2; exact VariantData.noConfusion h2)

/-- C5: The generated implementation block reproduces the input type's
generics verbatim: the output is the `impl` keyword, the declared
parameter list with bounds, the type name, the bare parameter names, and
the where-clause tokens, in that order; the where-clause is the input's
where-clause unchanged; with no parameters both generic fragments are
empty; the type-arguments fragment holds exactly the bare parameter
names in declaration order; and every parameter's bounds occur verbatim
in the impl-header fragment. -/
theorem generics_reproduced_verbatim (ast : MacroInput) (fields : List FieldDef)
    (h : ast.body = Body.Struct (VariantData.Struct fields)) :
    builder_for_struct ast =
      Except.ok ([Tok.ident "impl"] ++ implGenericsToks ast.generics ++ [Tok.ident ast.ident]
        ++ tyGenericsToks ast.generics ++ whereToks ast.generics ++ [Tok.punct "\x7b"]
        ++ (fields.map fun f => setterFn f.ident f.ty).flatten ++ [Tok.punct "\x7d"])
    ∧ whereToks ast.generics = ast.generics.whereClause
    ∧ (ast.generics.params = [] →
        implGenericsToks ast.generics = [] ∧ tyGenericsToks ast.generics = [])
    ∧ identsOf (tyGenericsToks ast.generics) = ast.generics.params.map (fun p => p.ident)
    ∧ ∀ p ∈ ast.generics.params, List.Sublist p.bounds (implGenericsToks ast.generics) := by
  refine ⟨?_, rfl, fun hp => by simp [implGenericsToks, tyGenericsToks, hp], ?_, ?_⟩
  · obtain ⟨ai, aa, ag, ab⟩ := ast
    cases h
    simp [builder_for_struct, implHeaderToks]
  · unfold tyGenericsToks
    by_cases hp : ast.generics.params.isEmpty
    · simp [hp, List.isEmpty_iff.mp hp, identsOf]
    · simp only [hp, Bool.false_eq_true, if_neg, not_false_eq_true]
      rw [identsOf_append, identsOf_append, identsOf_joinSep_names]
      simp [identsOf]
  · intro p hp
    have hne : ast.generics.params.isEmpty = false := by
      cases hq : ast.generics.params with
      | nil => rw [hq] at hp; exact absurd hp (List.not_mem_nil p)
      | cons a b => rfl
    unfold implGenericsToks
    rw [hne]
    simp only [Bool.false_eq_true, if_neg, not_false_eq_true]
    have h1 : List.Sublist (paramDeclToks p)
        (joinSep [Tok.punct ","] (ast.generics.params.map paramDeclToks)) :=
      sublist_joinSep _ _ _ (List.mem_map_of_mem paramDeclToks hp)
    have h2 := (bounds_sublist_paramDecl p).trans h1
    refine h2.trans ?_
    rw [List.append_assoc]
    exact (List.sublist_append_left _ [Tok.punct ">"]).trans
      (List.sublist_append_right [Tok.punct "<"] _)

/-- Witness for C5: the one-parameter doc example `GenLorem<T>` re-emits
exactly the bare name `T` in the type-arguments position. -/
theorem generics_verbatim_witness :
    identsOf (tyGenericsToks genLoremAst.generics) = ["T"] :=
  (generics_reproduced_verbatim genLoremAst genLoremFields rfl).2.2.2.1

/-- C9: The synthesized extra type parameter of every setter is the
constant identifier `VALUE` (the fifth token of every setter), and the
setter region of the output does not depend on the host type's generics
at all — so no collision check or renaming happens even when the host
type itself declares a parameter named `VALUE`. -/
theorem setter_type_param_always_VALUE (ast : MacroInput) (fields : List FieldDef)
    (h : ast.body = Body.Struct (VariantData.Struct fields)) :
    (∀ f ty, (setterFn f ty)[4]? = some (Tok.ident "VALUE"))
    ∧ (∀ g2 : Generics,
        builder_for_struct ⟨ast.ident, ast.attrs, g2, ast.body⟩ =
          Except.ok (implHeaderToks ast.ident g2
            ++ (fields.map fun f => setterFn f.ident f.ty).flatten ++ [Tok.punct "\x7d"])) := by
  refine ⟨fun f ty => rfl, fun g2 => ?_⟩
  simp only [builder_for_struct, h]

/-- Witness for C9: with a host type that already declares `VALUE` as a
generic parameter, the setter still uses the name `VALUE`. -/
theorem setter_VALUE_witness :
    (setterFn "x" [Tok.ident "u8"])[4]? = some (Tok.ident "VALUE") :=
  (setter_type_param_always_VALUE valueAst [⟨"x", [Tok.ident "u8"], []⟩] rfl).1 "x" [Tok.ident "u8"]

/-- C10: The generator's output depends only on the type's name, its
generics, and each field's name and declared type: two named-field
inputs agreeing on those — but differing arbitrarily in the attributes
attached to their fields (or to the type) — produce identical outputs;
no field attribute reaches the generated setters. -/
theorem output_ignores_field_attrs (a1 a2 : MacroInput) (f1 f2 : List FieldDef)
    (h1 : a1.body = Body.Struct (VariantData.Struct f1))
    (h2 : a2.body = Body.Struct (VariantData.Struct f2))
    (hn : a1.ident = a2.ident) (hg : a1.generics = a2.generics)
    (hf : f1.map (fun f => (f.ident, f.ty)) = f2.map (fun f => (f.ident, f.ty))) :
    builder_for_struct a1 = builder_for_struct a2 := by
  have hmap := congrArg (List.map (fun pr : String × List Tok => setterFn pr.1 pr.2)) hf
  rw [List.map_map, List.map_map] at hmap
  obtain ⟨i1, at1, g1, b1⟩ := a1
  obtain ⟨i2, at2, g2, b2⟩ := a2
  simp only at h1 h2 hn hg
  cases h1
  cases h2
  cases hn
  cases hg
  simp only [builder_for_struct]
  rw [show (List.map ((fun pr : String × List Tok => setterFn pr.1 pr.2) ∘ fun f => (f.ident, f.ty)) f1) = (List.map (fun f => setterFn f.ident f.ty) f1) from rfl] at hmap
  rw [show (List.map ((fun pr : String × List Tok => setterFn pr.1 pr.2) ∘ fun f => (f.ident, f.ty)) f2) = (List.map (fun f => setterFn f.ident f.ty) f2) from rfl] at hmap
  rw [hmap]

/-- Witness for C10: attaching doc-comment attributes to the fields of the
doc example `Lorem` leaves the generated implementation block unchanged. -/
theorem output_ignores_field_attrs_witness :
    builder_for_struct loremAst = builder_for_struct loremAstDoc :=
  output_ignores_field_attrs loremAst loremAstDoc loremFields loremFieldsDoc
    rfl rfl rfl rfl rfl
